import Mathlib

/-!
Verification development for the workout-session timer state machine and the
daily-state persistence/rollover logic of the Stemmy daily-routine app.

The definitions below are shallow embeddings of the TypeScript source:
  - src/hooks/useTimer.ts        (timerReducer, the phase-transition effect, hook actions)
  - src/hooks/usePersistedState.ts (initial-load state initializer, checkMidnight)
  - src/contexts/AppContext.tsx   (saveDailyProgress, resetStats, prayer cleanup effect)

JavaScript numbers used as whole-second durations are modelled as Int where the
source floors at 0 via Math.max, and as Nat for 1-indexed or 0-indexed counters.
-/

namespace Stemmy

/-! ## Timer data model (src/types, src/hooks/useTimer.ts) -/

/-- Timer phase enum: IDLE, PREP, WORK, REST, COMPLETE. -/
inductive Phase where
  | IDLE
  | PREP
  | WORK
  | REST
  | COMPLETE
deriving DecidableEq, Repr

/-- An exercise template: name, detail, sets, work seconds, rest seconds. -/
structure Exercise where
  name : String
  detail : String
  sets : Nat
  work : Int
  rest : Int
deriving DecidableEq, Repr

/-- Live state of the timer state machine (TimerState in src/types). -/
structure TimerState where
  phase : Phase
  timeRemaining : Int
  currentSet : Nat
  totalSets : Nat
  currentExerciseIndex : Nat
  totalExercises : Nat
  workTime : Int
  restTime : Int
  isRunning : Bool
deriving DecidableEq, Repr

/-- PREP_TIME constant from src/constants/index.ts (5 seconds). -/
def PREP_TIME : Int := 5

/-- The initialState object of useTimer.ts. -/
def initialState : TimerState :=
  { phase := .IDLE
    timeRemaining := 0
    currentSet := 0
    totalSets := 0
    currentExerciseIndex := 0
    totalExercises := 0
    workTime := 0
    restTime := 0
    isRunning := false }

/-- TimerAction union type of useTimer.ts. -/
inductive TimerAction where
  | INIT (exercises : List Exercise)
  | START
  | PAUSE
  | RESUME
  | TICK
  | NEXT_PHASE
  | NEXT_SET
  | NEXT_EXERCISE
  | SET_EXERCISE (exercise : Exercise) (index : Nat) (totalExercises : Nat)
  | RESET
  | COMPLETE

/-- Direct translation of timerReducer from src/hooks/useTimer.ts. -/
def timerReducer (state : TimerState) (action : TimerAction) : TimerState :=
  match action with
  | .INIT exercises =>
    match exercises with
    | [] => initialState
    | firstExercise :: _ =>
      { initialState with
        phase := .IDLE
        totalExercises := exercises.length
        currentExerciseIndex := 0
        currentSet := 1
        totalSets := firstExercise.sets
        workTime := firstExercise.work
        restTime := firstExercise.rest
        timeRemaining := PREP_TIME }
  | .START =>
    { state with phase := .PREP, timeRemaining := PREP_TIME, isRunning := true }
  | .PAUSE =>
    { state with isRunning := false }
  | .RESUME =>
    { state with isRunning := true }
  | .TICK =>
    if !state.isRunning then state
    else { state with timeRemaining := max 0 (state.timeRemaining - 1) }
  | .NEXT_PHASE =>
    match state.phase with
    | .PREP => { state with phase := .WORK, timeRemaining := state.workTime }
    | .WORK =>
      -- both branches of the source return the same REST state
      if state.currentSet < state.totalSets then
        { state with phase := .REST, timeRemaining := state.restTime }
      else
        { state with phase := .REST, timeRemaining := state.restTime }
    | .REST => state
    | _ => state
  | .NEXT_SET =>
    { state with
      phase := .WORK
      currentSet := state.currentSet + 1
      timeRemaining := state.workTime }
  | .NEXT_EXERCISE => state
  | .SET_EXERCISE exercise index totalExercises =>
    { phase := .PREP
      timeRemaining := PREP_TIME
      currentExerciseIndex := index
      totalExercises := totalExercises
      currentSet := 1
      totalSets := exercise.sets
      workTime := exercise.work
      restTime := exercise.rest
      isRunning := true }
  | .RESET => initialState
  | .COMPLETE =>
    { state with phase := .COMPLETE, isRunning := false }

/-- Side-effect notifications fired by the phase-transition effect. -/
inductive TimerEvent where
  | exerciseComplete (index : Nat)
  | workoutComplete
deriving DecidableEq, Repr

/-- The phase-transition effect of useTimer.ts (lines 204-247): runs when
timeRemaining has reached 0 while running, dispatches the appropriate
action(s) and fires completion events.  The list argument models
exercisesRef.current.  The JavaScript comparison
currentExerciseIndex < totalExercises - 1 is written here as
currentExerciseIndex + 1 < totalExercises, which agrees with it on integers
since currentExerciseIndex is nonnegative.  In the none branch of the lookup
the source would fault on an undefined element; the reachability invariant
below shows that branch is never taken. -/
def phaseBoundary (exercisesRef : List Exercise) (state : TimerState) :
    TimerState × List TimerEvent :=
  if state.timeRemaining = 0 ∧ state.isRunning = true then
    match state.phase with
    | .PREP => (timerReducer state .NEXT_PHASE, [])
    | .WORK =>
      if state.currentSet < state.totalSets then
        (timerReducer state .NEXT_PHASE, [])
      else if state.currentExerciseIndex + 1 < state.totalExercises then
        (timerReducer state .NEXT_PHASE, [])
      else
        (timerReducer state .COMPLETE, [.workoutComplete])
    | .REST =>
      if state.currentSet < state.totalSets then
        (timerReducer state .NEXT_SET, [])
      else if state.currentExerciseIndex + 1 < state.totalExercises then
        match exercisesRef[state.currentExerciseIndex + 1]? with
        | some nextExercise =>
          (timerReducer state
              (.SET_EXERCISE nextExercise (state.currentExerciseIndex + 1)
                exercisesRef.length),
            [.exerciseComplete state.currentExerciseIndex])
        | none => (state, [])
      else
        (timerReducer state .COMPLETE, [.workoutComplete])
    | _ => (state, [])
  else (state, [])

/-! ## Hook-level actions (useTimer.ts lines 265-301) -/

/-- The start action: dispatch START. -/
def startOp (state : TimerState) : TimerState :=
  timerReducer state .START

/-- The pause action: dispatch PAUSE. -/
def pauseOp (state : TimerState) : TimerState :=
  timerReducer state .PAUSE

/-- The resume action: dispatch RESUME. -/
def resumeOp (state : TimerState) : TimerState :=
  timerReducer state .RESUME

/-- The 1-second interval handler: dispatch TICK. -/
def tickOp (state : TimerState) : TimerState :=
  timerReducer state .TICK

/-- The init effect: dispatch INIT with the current exercise list. -/
def initOp (exercises : List Exercise) (state : TimerState) : TimerState :=
  timerReducer state (.INIT exercises)

/-- The reset action: dispatch RESET then INIT with exercisesRef.current. -/
def resetOp (exercises : List Exercise) (state : TimerState) : TimerState :=
  timerReducer (timerReducer state .RESET) (.INIT exercises)

/-- The toggle action: start when IDLE, else pause when running, else resume. -/
def toggleOp (state : TimerState) : TimerState :=
  if state.phase = .IDLE then startOp state
  else if state.isRunning then pauseOp state
  else resumeOp state

/-- The setExercise action: when the index is in range, dispatch RESET then
INIT with the list sliced from the index (a Nat index is never negative,
matching the index >= 0 guard of the source). -/
def setExerciseOp (exercises : List Exercise) (index : Nat)
    (state : TimerState) : TimerState :=
  if index < exercises.length then
    timerReducer (timerReducer state .RESET) (.INIT (exercises.drop index))
  else state

/-! ## Reachability: closure of the initial state under the hook operations -/

/-- The operations available on the timer hook, plus the phase-boundary
effect, as in the claim list: init, start, pause, resume, tick, toggle,
reset, setExercise, boundary. -/
inductive TimerOp where
  | init
  | start
  | pause
  | resume
  | tick
  | toggle
  | reset
  | setExercise (index : Nat)
  | boundary

/-- Apply one operation (with a fixed exercise list as exercisesRef). -/
def applyOp (exercises : List Exercise) (state : TimerState) :
    TimerOp → TimerState
  | .init => initOp exercises state
  | .start => startOp state
  | .pause => pauseOp state
  | .resume => resumeOp state
  | .tick => tickOp state
  | .toggle => toggleOp state
  | .reset => resetOp exercises state
  | .setExercise index => setExerciseOp exercises index state
  | .boundary => (phaseBoundary exercises state).1

/-- States reachable from initialState by any sequence of operations. -/
inductive Reachable (exercises : List Exercise) : TimerState → Prop where
  | base : Reachable exercises initialState
  | step (s : TimerState) (op : TimerOp) :
      Reachable exercises s → Reachable exercises (applyOp exercises s op)

/-- Guard used by the amended invariant claim: resume is only applied
outside IDLE and COMPLETE, and toggle only outside COMPLETE. -/
def SafeOp (state : TimerState) : TimerOp → Prop
  | .resume => state.phase ≠ .IDLE ∧ state.phase ≠ .COMPLETE
  | .toggle => state.phase ≠ .COMPLETE
  | _ => True

/-- States reachable when resume and toggle are never invoked in the
terminal/idle phases where the source reducer would set isRunning anyway. -/
inductive ReachableSafe (exercises : List Exercise) : TimerState → Prop where
  | base : ReachableSafe exercises initialState
  | step (s : TimerState) (op : TimerOp) :
      ReachableSafe exercises s → SafeOp s op →
      ReachableSafe exercises (applyOp exercises s op)

/-- All exercises of a plan have nonnegative work and rest durations
(the data model requires work at least 1 and rest at least 0). -/
def NonnegPlan (exercises : List Exercise) : Prop :=
  ∀ e ∈ exercises, 0 ≤ e.work ∧ 0 ≤ e.rest

/-- The inductive invariant maintained by the safe operations. -/
def TimerInv (s : TimerState) : Prop :=
  0 ≤ s.timeRemaining ∧ 0 ≤ s.workTime ∧ 0 ≤ s.restTime ∧
    ((s.phase = .IDLE ∨ s.phase = .COMPLETE) → s.isRunning = false)

lemma timerInv_initialState : TimerInv initialState := by
  refine ⟨by decide, by decide, by decide, fun _ => rfl⟩

lemma timerInv_init (exercises : List Exercise) (hplan : NonnegPlan exercises)
    (s : TimerState) : TimerInv (timerReducer s (.INIT exercises)) := by
  match exercises with
  | [] => exact timerInv_initialState
  | e :: rest =>
    obtain ⟨hw, hr⟩ := hplan e (List.mem_cons_self e rest)
    exact ⟨by simp [timerReducer, PREP_TIME], by simpa [timerReducer] using hw,
      by simpa [timerReducer] using hr, fun _ => rfl⟩

lemma timerInv_preserved (exercises : List Exercise)
    (hplan : NonnegPlan exercises) (s : TimerState) (op : TimerOp)
    (hinv : TimerInv s) (hsafe : SafeOp s op) :
    TimerInv (applyOp exercises s op) := by
  obtain ⟨ht, hw, hr, hidle⟩ := hinv
  cases op with
  | init => exact timerInv_init exercises hplan s
  | start =>
    exact ⟨by simp [applyOp, startOp, timerReducer, PREP_TIME],
      by simpa [applyOp, startOp, timerReducer] using hw,
      by simpa [applyOp, startOp, timerReducer] using hr,
      by simp [applyOp, startOp, timerReducer]⟩
  | pause =>
    exact ⟨by simpa [applyOp, pauseOp, timerReducer] using ht,
      by simpa [applyOp, pauseOp, timerReducer] using hw,
      by simpa [applyOp, pauseOp, timerReducer] using hr,
      by simp [applyOp, pauseOp, timerReducer]⟩
  | resume =>
    obtain ⟨h1, h2⟩ := hsafe
    have happ : applyOp exercises s .resume = { s with isRunning := true } := rfl
    rw [happ]
    refine ⟨ht, hw, hr, ?_⟩
    intro hphase
    rcases hphase with h | h
    · exact absurd h h1
    · exact absurd h h2
  | tick =>
    by_cases hrun : s.isRunning
    · have happ : applyOp exercises s .tick =
          { s with timeRemaining := max 0 (s.timeRemaining - 1) } := by
        simp [applyOp, tickOp, timerReducer, hrun]
      rw [happ]
      exact ⟨by simp, hw, hr, fun hphase => hidle hphase⟩
    · have happ : applyOp exercises s .tick = s := by
        simp [applyOp, tickOp, timerReducer, hrun]
      rw [happ]
      exact ⟨ht, hw, hr, hidle⟩
  | toggle =>
    by_cases hidle' : s.phase = .IDLE
    · refine ⟨by simp [applyOp, toggleOp, hidle', startOp, timerReducer, PREP_TIME],
        by simpa [applyOp, toggleOp, hidle', startOp, timerReducer] using hw,
        by simpa [applyOp, toggleOp, hidle', startOp, timerReducer] using hr,
        by simp [applyOp, toggleOp, hidle', startOp, timerReducer]⟩
    · by_cases hrun : s.isRunning
      · refine ⟨by simpa [applyOp, toggleOp, hidle', hrun, pauseOp, timerReducer] using ht,
          by simpa [applyOp, toggleOp, hidle', hrun, pauseOp, timerReducer] using hw,
          by simpa [applyOp, toggleOp, hidle', hrun, pauseOp, timerReducer] using hr,
          by simp [applyOp, toggleOp, hidle', hrun, pauseOp, timerReducer]⟩
      · have happ : applyOp exercises s .toggle = { s with isRunning := true } := by
          simp [applyOp, toggleOp, hidle', hrun, resumeOp, timerReducer]
        rw [happ]
        refine ⟨ht, hw, hr, ?_⟩
        intro hphase
        rcases hphase with h | h
        · exact absurd h hidle'
        · exact absurd h hsafe
  | reset =>
    have : applyOp exercises s .reset = timerReducer initialState (.INIT exercises) := rfl
    rw [this]
    exact timerInv_init exercises hplan initialState
  | setExercise index =>
    by_cases hlt : index < exercises.length
    · have : applyOp exercises s (.setExercise index) =
          timerReducer initialState (.INIT (exercises.drop index)) := by
        simp [applyOp, setExerciseOp, hlt, timerReducer]
      rw [this]
      refine timerInv_init _ ?_ initialState
      intro e he
      exact hplan e (List.mem_of_mem_drop he)
    · simp only [applyOp, setExerciseOp, hlt, if_false]
      exact ⟨ht, hw, hr, hidle⟩
  | boundary =>
    by_cases hcond : s.timeRemaining = 0 ∧ s.isRunning = true
    · match hphase : s.phase with
      | .IDLE =>
        have := hidle (Or.inl hphase)
        rw [hcond.2] at this
        exact absurd this (by simp)
      | .COMPLETE =>
        have := hidle (Or.inr hphase)
        rw [hcond.2] at this
        exact absurd this (by simp)
      | .PREP =>
        have : (phaseBoundary exercises s).1 = timerReducer s .NEXT_PHASE := by
          simp [phaseBoundary, hcond, hphase]
        simp only [applyOp, this, timerReducer, hphase]
        exact ⟨hw, hw, hr, by simp⟩
      | .WORK =>
        by_cases h1 : s.currentSet < s.totalSets
        · have : (phaseBoundary exercises s).1 = timerReducer s .NEXT_PHASE := by
            simp [phaseBoundary, hcond, hphase, h1]
          simp only [applyOp, this, timerReducer, hphase, h1, if_pos]
          exact ⟨hr, hw, hr, by simp⟩
        · by_cases h2 : s.currentExerciseIndex + 1 < s.totalExercises
          · have : (phaseBoundary exercises s).1 = timerReducer s .NEXT_PHASE := by
              simp [phaseBoundary, hcond, hphase, h1, h2]
            simp only [applyOp, this, timerReducer, hphase, h1, if_neg, if_false]
            exact ⟨hr, hw, hr, by simp⟩
          · have : (phaseBoundary exercises s).1 = timerReducer s .COMPLETE := by
              simp [phaseBoundary, hcond, hphase, h1, h2]
            simp only [applyOp, this, timerReducer]
            exact ⟨ht, hw, hr, fun _ => rfl⟩
      | .REST =>
        by_cases h1 : s.currentSet < s.totalSets
        · have : (phaseBoundary exercises s).1 = timerReducer s .NEXT_SET := by
            simp [phaseBoundary, hcond, hphase, h1]
          simp only [applyOp, this, timerReducer]
          exact ⟨hw, hw, hr, by simp⟩
        · by_cases h2 : s.currentExerciseIndex + 1 < s.totalExercises
          · match hget : exercises[s.currentExerciseIndex + 1]? with
            | some nextExercise =>
              have : (phaseBoundary exercises s).1 =
                  timerReducer s (.SET_EXERCISE nextExercise
                    (s.currentExerciseIndex + 1) exercises.length) := by
                simp [phaseBoundary, hcond, hphase, h1, h2, hget]
              simp only [applyOp, this, timerReducer]
              obtain ⟨hw2, hr2⟩ := hplan nextExercise (List.getElem?_mem hget)
              exact ⟨by simp [PREP_TIME], hw2, hr2, by simp⟩
            | none =>
              have : (phaseBoundary exercises s).1 = s := by
                simp [phaseBoundary, hcond, hphase, h1, h2, hget]
              simp only [applyOp, this]
              exact ⟨ht, hw, hr, hidle⟩
          · have : (phaseBoundary exercises s).1 = timerReducer s .COMPLETE := by
              simp [phaseBoundary, hcond, hphase, h1, h2]
            simp only [applyOp, this, timerReducer]
            exact ⟨ht, hw, hr, fun _ => rfl⟩
    · have : (phaseBoundary exercises s).1 = s := by
        simp only [phaseBoundary]
        rw [if_neg hcond]
      simp only [applyOp, this]
      exact ⟨ht, hw, hr, hidle⟩

lemma timerInv_reachableSafe (exercises : List Exercise)
    (hplan : NonnegPlan exercises) (s : TimerState)
    (h : ReachableSafe exercises s) : TimerInv s := by
  induction h with
  | base => exact timerInv_initialState
  | step s' op _ hsafe ih => exact timerInv_preserved exercises hplan s' op ih hsafe

/-- The nonnegativity part of the invariant, preserved even by the
unrestricted operations (resume in IDLE or COMPLETE included). -/
def TimerNonneg (s : TimerState) : Prop :=
  0 ≤ s.timeRemaining ∧ 0 ≤ s.workTime ∧ 0 ≤ s.restTime

lemma timerNonneg_init (exercises : List Exercise) (hplan : NonnegPlan exercises)
    (s : TimerState) : TimerNonneg (timerReducer s (.INIT exercises)) := by
  match exercises with
  | [] => exact ⟨le_refl 0, le_refl 0, le_refl 0⟩
  | e :: rest =>
    obtain ⟨hw, hr⟩ := hplan e (List.mem_cons_self e rest)
    exact ⟨by simp [timerReducer, PREP_TIME], by simpa [timerReducer] using hw,
      by simpa [timerReducer] using hr⟩

lemma timerNonneg_preserved (exercises : List Exercise)
    (hplan : NonnegPlan exercises) (s : TimerState) (op : TimerOp)
    (hinv : TimerNonneg s) : TimerNonneg (applyOp exercises s op) := by
  obtain ⟨ht, hw, hr⟩ := hinv
  cases op with
  | init => exact timerNonneg_init exercises hplan s
  | start => exact ⟨by simp [applyOp, startOp, timerReducer, PREP_TIME], hw, hr⟩
  | pause => exact ⟨ht, hw, hr⟩
  | resume => exact ⟨ht, hw, hr⟩
  | tick =>
    by_cases hrun : s.isRunning
    · have happ : applyOp exercises s .tick =
          { s with timeRemaining := max 0 (s.timeRemaining - 1) } := by
        simp [applyOp, tickOp, timerReducer, hrun]
      rw [happ]
      exact ⟨by simp, hw, hr⟩
    · have happ : applyOp exercises s .tick = s := by
        simp [applyOp, tickOp, timerReducer, hrun]
      rw [happ]
      exact ⟨ht, hw, hr⟩
  | toggle =>
    by_cases hidle' : s.phase = .IDLE
    · exact ⟨by simp [applyOp, toggleOp, hidle', startOp, timerReducer, PREP_TIME],
        by simpa [applyOp, toggleOp, hidle', startOp, timerReducer] using hw,
        by simpa [applyOp, toggleOp, hidle', startOp, timerReducer] using hr⟩
    · by_cases hrun : s.isRunning
      · have happ : applyOp exercises s .toggle = { s with isRunning := false } := by
          simp [applyOp, toggleOp, hidle', hrun, pauseOp, timerReducer]
        rw [happ]
        exact ⟨ht, hw, hr⟩
      · have happ : applyOp exercises s .toggle = { s with isRunning := true } := by
          simp [applyOp, toggleOp, hidle', hrun, resumeOp, timerReducer]
        rw [happ]
        exact ⟨ht, hw, hr⟩
  | reset =>
    have : applyOp exercises s .reset = timerReducer initialState (.INIT exercises) := rfl
    rw [this]
    exact timerNonneg_init exercises hplan initialState
  | setExercise index =>
    by_cases hlt : index < exercises.length
    · have : applyOp exercises s (.setExercise index) =
          timerReducer initialState (.INIT (exercises.drop index)) := by
        simp [applyOp, setExerciseOp, hlt, timerReducer]
      rw [this]
      refine timerNonneg_init _ ?_ initialState
      intro e he
      exact hplan e (List.mem_of_mem_drop he)
    · simp only [applyOp, setExerciseOp, hlt, if_false]
      exact ⟨ht, hw, hr⟩
  | boundary =>
    by_cases hcond : s.timeRemaining = 0 ∧ s.isRunning = true
    · match hphase : s.phase with
      | .IDLE =>
        have : (phaseBoundary exercises s).1 = s := by
          simp [phaseBoundary, hcond, hphase]
        simp only [applyOp, this]
        exact ⟨ht, hw, hr⟩
      | .COMPLETE =>
        have : (phaseBoundary exercises s).1 = s := by
          simp [phaseBoundary, hcond, hphase]
        simp only [applyOp, this]
        exact ⟨ht, hw, hr⟩
      | .PREP =>
        have : (phaseBoundary exercises s).1 = timerReducer s .NEXT_PHASE := by
          simp [phaseBoundary, hcond, hphase]
        simp only [applyOp, this, timerReducer, hphase]
        exact ⟨hw, hw, hr⟩
      | .WORK =>
        by_cases h1 : s.currentSet < s.totalSets
        · have : (phaseBoundary exercises s).1 = timerReducer s .NEXT_PHASE := by
            simp [phaseBoundary, hcond, hphase, h1]
          simp only [applyOp, this, timerReducer, hphase, h1, if_pos]
          exact ⟨hr, hw, hr⟩
        · by_cases h2 : s.currentExerciseIndex + 1 < s.totalExercises
          · have : (phaseBoundary exercises s).1 = timerReducer s .NEXT_PHASE := by
              simp [phaseBoundary, hcond, hphase, h1, h2]
            simp only [applyOp, this, timerReducer, hphase, h1, if_neg, if_false]
            exact ⟨hr, hw, hr⟩
          · have : (phaseBoundary exercises s).1 = timerReducer s .COMPLETE := by
              simp [phaseBoundary, hcond, hphase, h1, h2]
            simp only [applyOp, this, timerReducer]
            exact ⟨ht, hw, hr⟩
      | .REST =>
        by_cases h1 : s.currentSet < s.totalSets
        · have : (phaseBoundary exercises s).1 = timerReducer s .NEXT_SET := by
            simp [phaseBoundary, hcond, hphase, h1]
          simp only [applyOp, this, timerReducer]
          exact ⟨hw, hw, hr⟩
        · by_cases h2 : s.currentExerciseIndex + 1 < s.totalExercises
          · match hget : exercises[s.currentExerciseIndex + 1]? with
            | some nextExercise =>
              have : (phaseBoundary exercises s).1 =
                  timerReducer s (.SET_EXERCISE nextExercise
                    (s.currentExerciseIndex + 1) exercises.length) := by
                simp [phaseBoundary, hcond, hphase, h1, h2, hget]
              simp only [applyOp, this, timerReducer]
              obtain ⟨hw2, hr2⟩ := hplan nextExercise (List.getElem?_mem hget)
              exact ⟨by simp [PREP_TIME], hw2, hr2⟩
            | none =>
              have : (phaseBoundary exercises s).1 = s := by
                simp [phaseBoundary, hcond, hphase, h1, h2, hget]
              simp only [applyOp, this]
              exact ⟨ht, hw, hr⟩
          · have : (phaseBoundary exercises s).1 = timerReducer s .COMPLETE := by
              simp [phaseBoundary, hcond, hphase, h1, h2]
            simp only [applyOp, this, timerReducer]
            exact ⟨ht, hw, hr⟩
    · have : (phaseBoundary exercises s).1 = s := by
        simp only [phaseBoundary]
        rw [if_neg hcond]
      simp only [applyOp, this]
      exact ⟨ht, hw, hr⟩

lemma timerNonneg_reachable (exercises : List Exercise)
    (hplan : NonnegPlan exercises) (s : TimerState)
    (h : Reachable exercises s) : TimerNonneg s := by
  induction h with
  | base => exact ⟨by decide, by decide, by decide⟩
  | step s' op _ ih => exact timerNonneg_preserved exercises hplan s' op ih

lemma tickOp_isRunning (s : TimerState) : (tickOp s).isRunning = s.isRunning := by
  by_cases h : s.isRunning <;> simp [tickOp, timerReducer, h]

lemma tickOp_run (s : TimerState) (h : s.isRunning = true) :
    tickOp s = { s with timeRemaining := max 0 (s.timeRemaining - 1) } := by
  simp [tickOp, timerReducer, h]

lemma tickOp_iterate (n : Nat) (s : TimerState) (hrun : s.isRunning = true)
    (ht : 0 ≤ s.timeRemaining) :
    (tickOp^[n] s).timeRemaining = max 0 (s.timeRemaining - n) := by
  induction n generalizing s with
  | zero =>
    simp only [Function.iterate_zero, id_eq]
    omega
  | succ n ih =>
    rw [Function.iterate_succ_apply]
    rw [ih (tickOp s) (by rw [tickOp_isRunning]; exact hrun)
      (by rw [tickOp_run s hrun]; exact le_max_left 0 _)]
    rw [tickOp_run s hrun]
    simp only
    omega

/-! ## Claim theorems for the timer -/

/-- Sample exercise used by concrete witnesses (from src/data, push preset). -/
def benchPress : Exercise :=
  { name := "Bench Press", detail := "Chest focus", sets := 4, work := 45, rest := 90 }

/-- C1: at a WORK phase boundary (timeRemaining 0 while running), the
evaluation goes directly to COMPLETE exactly when the current set is the
last set of the last exercise, and otherwise goes to REST with
timeRemaining set to restTime. -/
theorem C1_work_boundary (exercises : List Exercise) (s : TimerState)
    (hphase : s.phase = .WORK) (hrun : s.isRunning = true)
    (ht : s.timeRemaining = 0) :
    ((s.totalSets ≤ s.currentSet ∧ s.totalExercises ≤ s.currentExerciseIndex + 1) →
      phaseBoundary exercises s =
        ({ s with phase := .COMPLETE, isRunning := false }, [.workoutComplete])) ∧
    ((s.currentSet < s.totalSets ∨ s.currentExerciseIndex + 1 < s.totalExercises) →
      phaseBoundary exercises s =
        ({ s with phase := .REST, timeRemaining := s.restTime }, [])) := by
  constructor
  · rintro ⟨h1, h2⟩
    have h1' : ¬ s.currentSet < s.totalSets := not_lt.mpr h1
    have h2' : ¬ s.currentExerciseIndex + 1 < s.totalExercises := not_lt.mpr h2
    simp [phaseBoundary, ht, hrun, hphase, h1', h2', timerReducer]
  · intro h
    rcases Nat.lt_or_ge s.currentSet s.totalSets with h1 | h1
    · simp [phaseBoundary, ht, hrun, hphase, h1, timerReducer]
    · have h1' : ¬ s.currentSet < s.totalSets := not_lt.mpr h1
      have h2 : s.currentExerciseIndex + 1 < s.totalExercises := by
        rcases h with h | h
        · exact absurd h h1'
        · exact h
      simp [phaseBoundary, ht, hrun, hphase, h1', h2, timerReducer]

/-- Witness for C1: with 2 of 3 sets done the WORK boundary rests. -/
theorem C1_work_boundary_witness :
    phaseBoundary []
        { phase := .WORK
          timeRemaining := 0
          currentSet := 2
          totalSets := 3
          currentExerciseIndex := 0
          totalExercises := 1
          workTime := 45
          restTime := 90
          isRunning := true } =
      ({ phase := .REST
         timeRemaining := 90
         currentSet := 2
         totalSets := 3
         currentExerciseIndex := 0
         totalExercises := 1
         workTime := 45
         restTime := 90
         isRunning := true }, []) :=
  (C1_work_boundary [] _ rfl rfl rfl).2 (Or.inl (by decide))

/-- C2: at a REST phase boundary the evaluation advances to the next set of
the same exercise when sets remain, otherwise loads the next exercise fresh
(PREP, PREP_TIME, set 1, data from the next exercise, running) and fires the
exercise-completed event for the exercise just finished, otherwise
completes the workout. -/
theorem C2_rest_boundary (exercises : List Exercise) (s : TimerState)
    (nextExercise : Exercise) (hphase : s.phase = .REST)
    (hrun : s.isRunning = true) (ht : s.timeRemaining = 0) :
    (s.currentSet < s.totalSets →
      phaseBoundary exercises s =
        ({ s with
           phase := .WORK
           currentSet := s.currentSet + 1
           timeRemaining := s.workTime }, [])) ∧
    (s.totalSets ≤ s.currentSet → s.currentExerciseIndex + 1 < s.totalExercises →
      exercises[s.currentExerciseIndex + 1]? = some nextExercise →
      phaseBoundary exercises s =
        ({ phase := .PREP
           timeRemaining := PREP_TIME
           currentExerciseIndex := s.currentExerciseIndex + 1
           totalExercises := exercises.length
           currentSet := 1
           totalSets := nextExercise.sets
           workTime := nextExercise.work
           restTime := nextExercise.rest
           isRunning := true },
          [.exerciseComplete s.currentExerciseIndex])) ∧
    (s.totalSets ≤ s.currentSet → s.totalExercises ≤ s.currentExerciseIndex + 1 →
      phaseBoundary exercises s =
        ({ s with phase := .COMPLETE, isRunning := false },
          [.workoutComplete])) := by
  refine ⟨fun h1 => ?_, fun h1 h2 hget => ?_, fun h1 h2 => ?_⟩
  · simp [phaseBoundary, ht, hrun, hphase, h1, timerReducer]
  · have h1' : ¬ s.currentSet < s.totalSets := not_lt.mpr h1
    simp [phaseBoundary, ht, hrun, hphase, h1', h2, hget, timerReducer]
  · have h1' : ¬ s.currentSet < s.totalSets := not_lt.mpr h1
    have h2' : ¬ s.currentExerciseIndex + 1 < s.totalExercises := not_lt.mpr h2
    simp [phaseBoundary, ht, hrun, hphase, h1', h2', timerReducer]

/-- Second sample exercise for the C2 witness (from src/data, push preset). -/
def overheadPress : Exercise :=
  { name := "Overhead Press", detail := "Shoulders", sets := 4, work := 40, rest := 90 }

/-- Witness state for C2: resting after the last set of exercise 0 of 2. -/
def restingState : TimerState :=
  { phase := .REST
    timeRemaining := 0
    currentSet := 4
    totalSets := 4
    currentExerciseIndex := 0
    totalExercises := 2
    workTime := 45
    restTime := 90
    isRunning := true }

theorem C2_rest_boundary_witness :
    phaseBoundary [benchPress, overheadPress] restingState =
      ({ phase := .PREP
         timeRemaining := PREP_TIME
         currentExerciseIndex := 1
         totalExercises := 2
         currentSet := 1
         totalSets := 4
         workTime := 40
         restTime := 90
         isRunning := true }, [.exerciseComplete 0]) :=
  (C2_rest_boundary _ _ _ rfl rfl rfl).2.1 (by decide) (by decide) rfl

/-- C3 counterexample: the state obtained by calling resume() on the initial
IDLE state is reachable, yet it is in phase IDLE with isRunning true, so the
claimed invariant fails as stated. -/
theorem C3_invariant_counterexample :
    Reachable [benchPress] { initialState with isRunning := true } ∧
    ({ initialState with isRunning := true } : TimerState).phase = .IDLE ∧
    ({ initialState with isRunning := true } : TimerState).isRunning = true := by
  refine ⟨?_, rfl, rfl⟩
  exact Reachable.step initialState .resume Reachable.base

/-- C3 (amended): for a plan whose exercises all have nonnegative durations,
timeRemaining stays nonnegative in every reachable state; and isRunning is
false whenever the phase is IDLE or COMPLETE in every state reachable
without invoking resume while in IDLE or COMPLETE (or toggle while in
COMPLETE), since the RESUME reducer case sets isRunning unconditionally. -/
theorem C3_invariant_amended (exercises : List Exercise)
    (hplan : NonnegPlan exercises) (s : TimerState) :
    (Reachable exercises s → 0 ≤ s.timeRemaining) ∧
    (ReachableSafe exercises s →
      (0 ≤ s.timeRemaining ∧
        ((s.phase = .IDLE ∨ s.phase = .COMPLETE) → s.isRunning = false))) := by
  constructor
  · intro h
    exact (timerNonneg_reachable exercises hplan s h).1
  · intro h
    obtain ⟨ht, _, _, hi⟩ := timerInv_reachableSafe exercises hplan s h
    exact ⟨ht, hi⟩

/-- Witness for C3 (amended): the state after init and start. -/
theorem C3_invariant_amended_witness :
    0 ≤ (startOp (initOp [benchPress] initialState)).timeRemaining ∧
      (((startOp (initOp [benchPress] initialState)).phase = .IDLE ∨
          (startOp (initOp [benchPress] initialState)).phase = .COMPLETE) →
        (startOp (initOp [benchPress] initialState)).isRunning = false) :=
  (C3_invariant_amended [benchPress] (by unfold NonnegPlan; decide) _).2
    (ReachableSafe.step _ .start
      (ReachableSafe.step _ .init ReachableSafe.base trivial) trivial)

/-- C6: tick is a no-op when not running; when running it decrements
timeRemaining by one, floored at 0, changing nothing else; iterated ticks
from a running state take timeRemaining down to 0 and never below. -/
theorem C6_tick (s : TimerState) :
    (s.isRunning = false → tickOp s = s) ∧
    (s.isRunning = true →
      tickOp s = { s with timeRemaining := max 0 (s.timeRemaining - 1) } ∧
      (0 < s.timeRemaining → (tickOp s).timeRemaining < s.timeRemaining) ∧
      0 ≤ (tickOp s).timeRemaining ∧
      (0 ≤ s.timeRemaining → ∀ n : Nat,
        (tickOp^[n] s).timeRemaining = max 0 (s.timeRemaining - n))) := by
  refine ⟨fun h => by simp [tickOp, timerReducer, h], fun h => ?_⟩
  refine ⟨tickOp_run s h, fun hpos => ?_, ?_, fun ht n => tickOp_iterate n s h ht⟩
  · rw [tickOp_run s h]
    simp only
    omega
  · rw [tickOp_run s h]
    simp only
    omega

/-- Witness state for C6: mid-way through a running WORK phase. -/
def runningWorkState : TimerState :=
  { phase := .WORK
    timeRemaining := 45
    currentSet := 1
    totalSets := 4
    currentExerciseIndex := 0
    totalExercises := 1
    workTime := 45
    restTime := 90
    isRunning := true }

theorem C6_tick_witness :
    tickOp runningWorkState = { runningWorkState with timeRemaining := 44 } := by
  have h := ((C6_tick runningWorkState).2 rfl).1
  simpa [runningWorkState] using h

/-- C7: init on an empty plan yields the safe IDLE initial state; on a
non-empty plan it loads the first exercise with currentSet 1, timeRemaining
PREP_TIME (5 seconds), phase IDLE and isRunning false. -/
theorem C7_init (s : TimerState) :
    (timerReducer s (.INIT []) = initialState ∧ initialState.phase = .IDLE ∧
      initialState.isRunning = false) ∧
    (∀ e rest, timerReducer s (.INIT (e :: rest)) =
      { phase := .IDLE, timeRemaining := PREP_TIME, currentSet := 1,
        totalSets := e.sets, currentExerciseIndex := 0,
        totalExercises := (e :: rest).length, workTime := e.work,
        restTime := e.rest, isRunning := false }) ∧
    PREP_TIME = 5 :=
  ⟨⟨rfl, rfl, rfl⟩, fun _ _ => rfl, rfl⟩

/-- C8: pause and resume change only the isRunning flag; pause immediately
followed by resume leaves timeRemaining and phase untouched. -/
theorem C8_pause_resume (s : TimerState) :
    pauseOp s = { s with isRunning := false } ∧
    resumeOp s = { s with isRunning := true } ∧
    resumeOp (pauseOp s) = { s with isRunning := true } ∧
    (resumeOp (pauseOp s)).timeRemaining = s.timeRemaining ∧
    (resumeOp (pauseOp s)).phase = s.phase :=
  ⟨rfl, rfl, rfl, rfl, rfl⟩

/-! ## Persisted-state container (src/hooks/usePersistedState.ts)

The localStorage envelope is a date string plus a value.  A missing or
unparsable envelope is modelled as none.  The rollover callback onReset may
throw; this is modelled by letting it return Except, with the error branch
standing for a thrown exception. -/

/-- The JSON envelope stored per key. -/
structure PersistedData (T : Type) where
  date : String
  value : T
deriving DecidableEq, Repr

/-- The useState initializer of usePersistedState (lines 120-146): returns
the live value together with a flag recording whether an onReset exception
was logged via console.error.  A thrown callback exception is caught at the
call site and the function still falls through to return the default. -/
def loadInitialState {T E : Type} (stored : Option (PersistedData T))
    (defaultValue : T) (resetAtMidnight : Bool)
    (onReset : Option (T → String → Except E Unit)) (today : String) :
    T × Bool :=
  match stored with
  | none => (defaultValue, false)
  | some parsed =>
    if resetAtMidnight then
      if parsed.date ≠ today then
        match onReset with
        | some cb =>
          match cb parsed.value parsed.date with
          | .ok _ => (defaultValue, false)
          | .error _ => (defaultValue, true)
        | none => (defaultValue, false)
      else (parsed.value, false)
    else (parsed.value, false)

/-- The checkMidnight closure of usePersistedState (lines 161-176): the
whole body sits in a try block whose catch clause ignores the exception, so
when onReset throws, the exception aborts the block before
setState(defaultValue) runs and the live state is left unchanged; nothing
is logged. -/
def checkMidnight {T E : Type} (stored : Option (PersistedData T))
    (today : String) (onReset : Option (T → String → Except E Unit))
    (state defaultValue : T) : T :=
  match stored with
  | none => state
  | some parsed =>
    if parsed.date ≠ today then
      match onReset with
      | some cb =>
        match cb parsed.value parsed.date with
        | .ok _ => defaultValue
        | .error _ => state
      | none => defaultValue
    else state

/-- C4: the claim says a rollover-callback exception is caught and logged on
the initial load AND on every staleness re-check, with the reset to the
default proceeding in both.  The initial-load path behaves that way, but in
checkMidnight the callback is not wrapped: its exception is swallowed by
the surrounding parse-error catch, no logging happens and
setState(defaultValue) is skipped, so the live value stays stale.  This
theorem evaluates both paths at the failing input. -/
theorem C4_checkMidnight_skips_reset :
    checkMidnight (some ⟨"2024-01-01", (7 : Nat)⟩) "2024-01-02"
        (some (fun _ _ => Except.error "boom")) 7 0 = 7 ∧
    (7 : Nat) ≠ 0 ∧
    loadInitialState (some ⟨"2024-01-01", (7 : Nat)⟩) 0 true
        (some (fun _ _ => Except.error "boom")) "2024-01-02" = (0, true) := by
  refine ⟨?_, by decide, ?_⟩
  · simp [checkMidnight]
  · simp [loadInitialState]

/-! ## App data model (src/types, src/contexts/AppContext.tsx) -/

/-- How a prayer was performed: alone or in congregation. -/
inductive PrayerType where
  | alone
  | jamat
deriving DecidableEq, Repr

/-- A completed prayer entry in the current schema. -/
structure PrayerStatus where
  id : String
  type : PrayerType
  completedAt : String
deriving DecidableEq, Repr

/-- A raw element of the persisted prayer list: either a legacy bare string
identifier or a current-schema object. -/
inductive PrayerEntry where
  | str (s : String)
  | obj (p : PrayerStatus)
deriving DecidableEq, Repr

structure ProteinTracker where
  current : Nat
  goal : Nat
deriving DecidableEq, Repr

structure HydrationTracker where
  glasses : Nat
  goal : Nat
deriving DecidableEq, Repr

structure MindfulnessTracker where
  minutes : Nat
  goal : Nat
deriving DecidableEq, Repr

structure Task where
  id : String
  time : String
  title : String
  subtitle : String
  type : String
  category : String
  completed : Bool
deriving DecidableEq, Repr

structure NonNegotiable where
  id : String
  label : String
  completed : Bool
deriving DecidableEq, Repr

/-- The single mutable record of the current day. -/
structure DailyState where
  date : String
  tasks : List Task
  protein : ProteinTracker
  hydration : HydrationTracker
  mindfulness : MindfulnessTracker
  nonNegotiables : List NonNegotiable
  activeRoutine : String
  prayers : List PrayerEntry
deriving DecidableEq, Repr

/-- One entry of stats.history: a recorded workout session. -/
structure WorkoutHistoryItem where
  date : String
  workoutId : String
  duration : Nat
  exercisesCompleted : Nat
deriving DecidableEq, Repr

structure WorkoutSummary where
  count : Nat
  duration : Nat
  calories : Nat
deriving DecidableEq, Repr

structure NutritionSummary where
  protein : Nat
  water : Nat
deriving DecidableEq, Repr

structure MindfulnessSummary where
  minutes : Nat
deriving DecidableEq, Repr

structure PrayersSummary where
  completed : List PrayerEntry
  total : Nat
deriving DecidableEq, Repr

/-- Archived snapshot of one calendar day. -/
structure HistoryRecord where
  date : String
  workout : WorkoutSummary
  nutrition : NutritionSummary
  mindfulness : MindfulnessSummary
  prayers : PrayersSummary
deriving DecidableEq, Repr

structure WorkoutStats where
  streak : Nat
  totalWorkouts : Nat
  totalTime : Nat
  lastWorkout : Option String
  history : List WorkoutHistoryItem
deriving DecidableEq, Repr

/-- DEFAULT_STATS of AppContext.tsx. -/
def DEFAULT_STATS : WorkoutStats :=
  { streak := 0, totalWorkouts := 0, totalTime := 0, lastWorkout := none, history := [] }

structure UserProfile where
  name : String
  email : String
  goal : String
  routine : String
  weight : Nat
  height : Nat
  age : Nat
  isOnboarded : Bool
deriving DecidableEq, Repr

structure WorkoutPreset where
  id : String
  name : String
  icon : String
  exercises : List Exercise
  routine : Option String
deriving DecidableEq, Repr

/-- The persisted application state held by AppProvider: the user profile,
workout stats, history archive, daily state, active workout selection and
custom workout list live under distinct storage keys. -/
structure AppState where
  user : UserProfile
  stats : WorkoutStats
  history : List HistoryRecord
  daily : DailyState
  activeWorkout : Option WorkoutPreset
  customWorkouts : List WorkoutPreset
deriving DecidableEq, Repr

/-! ## Daily rollover and history archiver (AppContext.tsx lines 142-171) -/

/-- The descending-by-date order used by the sort comparator
(a, b) => b.date.localeCompare(a.date), read on ISO YYYY-MM-DD strings
where localeCompare agrees with lexicographic comparison. -/
def histDateDesc (a b : HistoryRecord) : Prop :=
  b.date ≤ a.date

instance : DecidableRel histDateDesc :=
  fun a b => inferInstanceAs (Decidable (b.date ≤ a.date))

instance : IsTotal HistoryRecord histDateDesc :=
  ⟨fun a b => le_total b.date a.date⟩

instance : IsTrans HistoryRecord histDateDesc :=
  ⟨fun _ _ _ hab hbc => le_trans hbc hab⟩

/-- The record computed by saveDailyProgress from the stale daily state and
the workout-stats history.  The reduce over dayWorkouts is the sum of their
durations, and Math.round(duration / 60 * 10) on a whole-second duration d
is the integer nearest d / 6, ties up, namely (d + 3) / 6 in Nat division. -/
def dailyRecord (statsHistory : List WorkoutHistoryItem)
    (staleDaily : DailyState) (staleDate : String) : HistoryRecord :=
  let dayWorkouts := statsHistory.filter (fun w => w.date.startsWith staleDate)
  let totalDuration := (dayWorkouts.map (fun w => w.duration)).sum
  { date := staleDate
    workout :=
      { count := dayWorkouts.length
        duration := totalDuration
        calories := (totalDuration + 3) / 6 }
    nutrition :=
      { protein := staleDaily.protein.current
        water := staleDaily.hydration.glasses }
    mindfulness := { minutes := staleDaily.mindfulness.minutes }
    prayers := { completed := staleDaily.prayers, total := 5 } }

/-- saveDailyProgress: skip when a record for the stale date already exists,
otherwise append the new record and sort by date descending.  The stable
JavaScript sort with a valid comparator is modelled by insertion sort on
the histDateDesc order. -/
def saveDailyProgress (statsHistory : List WorkoutHistoryItem)
    (staleDaily : DailyState) (staleDate : String)
    (prev : List HistoryRecord) : List HistoryRecord :=
  if prev.any (fun h => h.date == staleDate) then prev
  else
    List.insertionSort histDateDesc
      (prev ++ [dailyRecord statsHistory staleDaily staleDate])

/-- resetStats of AppContext.tsx: setStats(DEFAULT_STATS) and
setHistory([]); no other store is touched. -/
def resetStats (s : AppState) : AppState :=
  { s with stats := DEFAULT_STATS, history := [] }

/-- C5: starting from a history with no record for the stale date, running
the rollover once and then a second time for the same date leaves exactly
one HistoryRecord for that date, and the collection after the insertion is
sorted by date descending. -/
theorem C5_rollover_idempotent (statsHistory : List WorkoutHistoryItem)
    (staleDaily : DailyState) (staleDate : String)
    (prev : List HistoryRecord)
    (hnone : prev.countP (fun h => h.date == staleDate) = 0) :
    (saveDailyProgress statsHistory staleDaily staleDate prev).countP
        (fun h => h.date == staleDate) = 1 ∧
    (saveDailyProgress statsHistory staleDaily staleDate
        (saveDailyProgress statsHistory staleDaily staleDate prev)).countP
        (fun h => h.date == staleDate) = 1 ∧
    (saveDailyProgress statsHistory staleDaily staleDate prev).Sorted
      histDateDesc := by
  have hall := List.countP_eq_zero.mp hnone
  have hany : prev.any (fun h => h.date == staleDate) = false := by
    rw [List.any_eq_false]
    intro x hx
    simpa using hall x hx
  have hsave : saveDailyProgress statsHistory staleDaily staleDate prev =
      List.insertionSort histDateDesc
        (prev ++ [dailyRecord statsHistory staleDaily staleDate]) := by
    rw [saveDailyProgress, hany]
    simp
  have hcount1 : (saveDailyProgress statsHistory staleDaily staleDate prev).countP
      (fun h => h.date == staleDate) = 1 := by
    rw [hsave]
    rw [(List.perm_insertionSort histDateDesc _).countP_eq]
    rw [List.countP_append, hnone]
    simp [dailyRecord]
  refine ⟨hcount1, ?_, ?_⟩
  · have hpos : 0 < (saveDailyProgress statsHistory staleDaily staleDate prev).countP
        (fun h => h.date == staleDate) := by omega
    obtain ⟨a, ha, hpa⟩ := List.countP_pos_iff.mp hpos
    have hany2 : (saveDailyProgress statsHistory staleDaily staleDate prev).any
        (fun h => h.date == staleDate) = true :=
      List.any_eq_true.mpr ⟨a, ha, hpa⟩
    rw [saveDailyProgress, hany2]
    simpa using hcount1
  · rw [hsave]
    exact List.sorted_insertionSort histDateDesc _

/-- Witness daily state for the C5 and C10 witnesses. -/
def sampleDaily : DailyState :=
  { date := "2024-01-01"
    tasks := []
    protein := { current := 80, goal := 140 }
    hydration := { glasses := 6, goal := 8 }
    mindfulness := { minutes := 10, goal := 30 }
    nonNegotiables := []
    activeRoutine := "A"
    prayers := [] }

theorem C5_rollover_idempotent_witness :
    (saveDailyProgress [] sampleDaily "2024-01-01" []).countP
        (fun h => h.date == "2024-01-01") = 1 ∧
    (saveDailyProgress [] sampleDaily "2024-01-01"
        (saveDailyProgress [] sampleDaily "2024-01-01" [])).countP
        (fun h => h.date == "2024-01-01") = 1 ∧
    (saveDailyProgress [] sampleDaily "2024-01-01" []).Sorted histDateDesc :=
  C5_rollover_idempotent [] sampleDaily "2024-01-01" [] rfl

/-- C10: resetStats resets the workout stats to their defaults and also
replaces the whole HistoryRecord archive by the empty list, while the daily
state, user profile, active workout and custom workouts are untouched. -/
theorem C10_resetStats_erases_history (s : AppState) :
    (resetStats s).stats = DEFAULT_STATS ∧
    (resetStats s).history = [] ∧
    (resetStats s).daily = s.daily ∧
    (resetStats s).user = s.user ∧
    (resetStats s).customWorkouts = s.customWorkouts ∧
    (resetStats s).activeWorkout = s.activeWorkout :=
  ⟨rfl, rfl, rfl, rfl, rfl, rfl⟩

/-! ## Prayer cleanup and migration effect (AppContext.tsx lines 395-425) -/

/-- The forEach of the cleanup effect: builds the insertion-ordered
uniquePrayers map (modelled as an association list, since a JS Map keyed by
strings preserves insertion order and fresh keys are appended) together
with the hasChanges flag.  A legacy bare string is converted to an object
with type alone and completedAt now when its id is fresh, and silently
skipped otherwise; an object with a falsy (empty) id is skipped without
setting the flag; a duplicate object id sets the flag. -/
def prayerCleanupScan (now : String) :
    List PrayerEntry → List (String × PrayerStatus) → Bool →
    List (String × PrayerStatus) × Bool
  | [], uniquePrayers, hasChanges => (uniquePrayers, hasChanges)
  | .str p :: rest, uniquePrayers, hasChanges =>
    if uniquePrayers.any (fun kv => kv.1 == p) then
      prayerCleanupScan now rest uniquePrayers hasChanges
    else
      prayerCleanupScan now rest (uniquePrayers ++ [(p, ⟨p, .alone, now⟩)]) true
  | .obj p :: rest, uniquePrayers, hasChanges =>
    if p.id == "" then
      prayerCleanupScan now rest uniquePrayers hasChanges
    else if uniquePrayers.any (fun kv => kv.1 == p.id) then
      prayerCleanupScan now rest uniquePrayers true
    else
      prayerCleanupScan now rest (uniquePrayers ++ [(p.id, p)]) hasChanges

/-- The corrected prayer list: Array.from(uniquePrayers.values()). -/
def normalizePrayers (now : String) (prayersList : List PrayerEntry) :
    List PrayerStatus :=
  ((prayerCleanupScan now prayersList [] false).1).map Prod.snd

/-- typeof p === string. -/
def isLegacyString : PrayerEntry → Bool
  | .str _ => true
  | .obj _ => false

/-- The persist condition guarding setDaily: hasChanges, or the map size
differs from the list length, or some entry is a bare string. -/
def prayerPersistNeeded (now : String) (prayersList : List PrayerEntry) :
    Bool :=
  (prayerCleanupScan now prayersList [] false).2
    || ((prayerCleanupScan now prayersList [] false).1.length != prayersList.length)
    || prayersList.any isLegacyString

/-- The key-value pair a fresh entry contributes to the map. -/
def prayerKV (now : String) : PrayerEntry → String × PrayerStatus
  | .str s => (s, ⟨s, .alone, now⟩)
  | .obj q => (q.id, q)

lemma prayerCleanupScan_flag_mono (now : String) :
    ∀ (ps : List PrayerEntry) (m : List (String × PrayerStatus)),
      (prayerCleanupScan now ps m true).2 = true := by
  intro ps
  induction ps with
  | nil => intro m; rfl
  | cons p rest ih =>
    intro m
    cases p with
    | str s =>
      by_cases h : m.any (fun kv => kv.1 == s)
      · simp only [prayerCleanupScan, h, if_true]
        exact ih m
      · simp only [prayerCleanupScan, h, Bool.false_eq_true, if_false]
        exact ih _
    | obj q =>
      by_cases h0 : q.id == ""
      · simp only [prayerCleanupScan, h0, if_true]
        exact ih m
      · by_cases h : m.any (fun kv => kv.1 == q.id)
        · simp only [prayerCleanupScan, h0, h, Bool.false_eq_true, if_true, if_false]
          exact ih m
        · simp only [prayerCleanupScan, h0, h, Bool.false_eq_true, if_false]
          exact ih _

lemma prayerCleanupScan_length_le (now : String) :
    ∀ (ps : List PrayerEntry) (m : List (String × PrayerStatus)) (ch : Bool),
      (prayerCleanupScan now ps m ch).1.length ≤ m.length + ps.length := by
  intro ps
  induction ps with
  | nil => intro m ch; simp [prayerCleanupScan]
  | cons p rest ih =>
    intro m ch
    cases p with
    | str s =>
      by_cases h : m.any (fun kv => kv.1 == s)
      · simp only [prayerCleanupScan, h, if_true, List.length_cons]
        have := ih m ch
        omega
      · simp only [prayerCleanupScan, h, Bool.false_eq_true, if_false, List.length_cons]
        have := ih (m ++ [(s, ⟨s, .alone, now⟩)]) true
        simp only [List.length_append, List.length_singleton] at this
        omega
    | obj q =>
      by_cases h0 : q.id == ""
      · simp only [prayerCleanupScan, h0, if_true, List.length_cons]
        have := ih m ch
        omega
      · by_cases h : m.any (fun kv => kv.1 == q.id)
        · simp only [prayerCleanupScan, h0, h, Bool.false_eq_true, if_true, if_false, List.length_cons]
          have := ih m true
          omega
        · simp only [prayerCleanupScan, h0, h, Bool.false_eq_true, if_false, List.length_cons]
          have := ih (m ++ [(q.id, q)]) ch
          simp only [List.length_append, List.length_singleton] at this
          omega

lemma prayerCleanupScan_keys (now : String) :
    ∀ (ps : List PrayerEntry) (m : List (String × PrayerStatus)) (ch : Bool),
      (∀ kv ∈ m, kv.1 = kv.2.id) → ((m.map Prod.fst).Nodup) →
      ((∀ kv ∈ (prayerCleanupScan now ps m ch).1, kv.1 = kv.2.id) ∧
        (((prayerCleanupScan now ps m ch).1.map Prod.fst).Nodup)) := by
  intro ps
  induction ps with
  | nil => intro m ch hkv hnd; exact ⟨hkv, hnd⟩
  | cons p rest ih =>
    intro m ch hkv hnd
    have hfresh : ∀ (k : String) (v : PrayerStatus),
        m.any (fun kv => kv.1 == k) = false → k = v.id →
        (∀ kv ∈ m ++ [(k, v)], kv.1 = kv.2.id) ∧
          (((m ++ [(k, v)]).map Prod.fst).Nodup) := by
      intro k v hnew hid
      constructor
      · intro kv hkvmem
        rcases List.mem_append.mp hkvmem with hmem | hmem
        · exact hkv kv hmem
        · rcases List.mem_singleton.mp hmem with rfl
          exact hid
      · rw [List.map_append]
        simp only [List.map_cons, List.map_nil]
        rw [List.nodup_append]
        refine ⟨hnd, List.nodup_singleton k, ?_⟩
        intro a ha hb
        rcases List.mem_singleton.mp hb with rfl
        rw [List.any_eq_false] at hnew
        obtain ⟨⟨k1, v1⟩, hm, hk1⟩ := List.mem_map.mp ha
        exact hnew ⟨k1, v1⟩ hm (by simpa using hk1)
    cases p with
    | str s =>
      by_cases h : m.any (fun kv => kv.1 == s)
      · simp only [prayerCleanupScan, h, if_true]
        exact ih m ch hkv hnd
      · simp only [prayerCleanupScan, h, Bool.false_eq_true, if_false]
        obtain ⟨hkv2, hnd2⟩ := hfresh s ⟨s, .alone, now⟩ (by rwa [Bool.not_eq_true] at h) rfl
        exact ih _ true hkv2 hnd2
    | obj q =>
      by_cases h0 : q.id == ""
      · simp only [prayerCleanupScan, h0, if_true]
        exact ih m ch hkv hnd
      · by_cases h : m.any (fun kv => kv.1 == q.id)
        · simp only [prayerCleanupScan, h0, h, Bool.false_eq_true, if_true, if_false]
          exact ih m true hkv hnd
        · simp only [prayerCleanupScan, h0, h, Bool.false_eq_true, if_false]
          obtain ⟨hkv2, hnd2⟩ := hfresh q.id q (by rwa [Bool.not_eq_true] at h) rfl
          exact ih _ ch hkv2 hnd2

lemma prayerCleanupScan_prefix (now : String) :
    ∀ (ps : List PrayerEntry) (m : List (String × PrayerStatus)) (ch : Bool),
      ∃ tail, (prayerCleanupScan now ps m ch).1 = m ++ tail := by
  intro ps
  induction ps with
  | nil => intro m ch; exact ⟨[], by simp [prayerCleanupScan]⟩
  | cons p rest ih =>
    intro m ch
    cases p with
    | str s =>
      by_cases h : m.any (fun kv => kv.1 == s)
      · simp only [prayerCleanupScan, h, if_true]
        exact ih m ch
      · simp only [prayerCleanupScan, h, Bool.false_eq_true, if_false]
        obtain ⟨tail, htail⟩ := ih (m ++ [(s, ⟨s, .alone, now⟩)]) true
        exact ⟨(s, ⟨s, .alone, now⟩) :: tail, by rw [htail]; simp⟩
    | obj q =>
      by_cases h0 : q.id == ""
      · simp only [prayerCleanupScan, h0, if_true]
        exact ih m ch
      · by_cases h : m.any (fun kv => kv.1 == q.id)
        · simp only [prayerCleanupScan, h0, h, Bool.false_eq_true, if_true, if_false]
          exact ih m true
        · simp only [prayerCleanupScan, h0, h, Bool.false_eq_true, if_false]
          obtain ⟨tail, htail⟩ := ih (m ++ [(q.id, q)]) ch
          exact ⟨(q.id, q) :: tail, by rw [htail]; simp⟩

lemma prayerCleanupScan_unchanged (now : String) :
    ∀ (ps : List PrayerEntry) (m : List (String × PrayerStatus)),
      (∀ p ∈ ps, isLegacyString p = false) →
      (prayerCleanupScan now ps m false).2 = false →
      (prayerCleanupScan now ps m false).1.length = m.length + ps.length →
      (prayerCleanupScan now ps m false).1 = m ++ ps.map (prayerKV now) := by
  intro ps
  induction ps with
  | nil => intro m _ _ _; simp [prayerCleanupScan]
  | cons p rest ih =>
    intro m hstr hflag hlen
    cases p with
    | str s =>
      exact absurd (hstr (.str s) (List.mem_cons_self _ _)) (by simp [isLegacyString])
    | obj q =>
      by_cases h0 : q.id == ""
      · exfalso
        have hstep : prayerCleanupScan now (PrayerEntry.obj q :: rest) m false =
            prayerCleanupScan now rest m false := by
          simp [prayerCleanupScan, h0]
        rw [hstep] at hlen
        have hle := prayerCleanupScan_length_le now rest m false
        rw [hlen] at hle
        simp only [List.length_cons] at hle
        omega
      · by_cases h : m.any (fun kv => kv.1 == q.id)
        · exfalso
          simp only [prayerCleanupScan, h0, h, Bool.false_eq_true, if_true, if_false] at hflag
          rw [prayerCleanupScan_flag_mono now rest m] at hflag
          exact Bool.noConfusion hflag
        · simp only [prayerCleanupScan, h0, h, Bool.false_eq_true, if_false] at hflag hlen ⊢
          have hlen2 : (prayerCleanupScan now rest (m ++ [(q.id, q)]) false).1.length =
              (m ++ [(q.id, q)]).length + rest.length := by
            simp only [List.length_append, List.length_singleton, List.length_cons,
              List.length_nil] at hlen ⊢
            omega
          have := ih (m ++ [(q.id, q)])
            (fun p hp => hstr p (List.mem_cons_of_mem _ hp)) hflag hlen2
          rw [this]
          simp [prayerKV]

/-- C9: prayer-list normalization converts a leading legacy bare string
into an object with type alone and completedAt set to now; the result never
contains two entries with the same id (dedup keeps the first occurrence);
the corrected list is persisted back whenever anything changed
(equivalently, when no persist is triggered the list was already the
normalized object list); and on the concrete list [str fajr, obj fajr]
the result is exactly one entry for fajr, namely the normalized first
occurrence. -/
theorem C9_prayer_normalization :
    normalizePrayers "T0" [.str "fajr", .obj ⟨"fajr", .jamat, "T1"⟩] =
      [⟨"fajr", .alone, "T0"⟩] ∧
    ((normalizePrayers "T0" [.str "fajr", .obj ⟨"fajr", .jamat, "T1"⟩]).filter
        (fun q => q.id == "fajr")).length = 1 ∧
    prayerPersistNeeded "T0" [.str "fajr", .obj ⟨"fajr", .jamat, "T1"⟩] = true ∧
    (∀ now s rest, ∃ tail,
      normalizePrayers now (.str s :: rest) = ⟨s, .alone, now⟩ :: tail) ∧
    (∀ now prayersList,
      ((normalizePrayers now prayersList).map (fun q => q.id)).Nodup) ∧
    (∀ now prayersList, prayerPersistNeeded now prayersList = false →
      prayersList = (normalizePrayers now prayersList).map PrayerEntry.obj) := by
  refine ⟨by decide, by decide, by decide, ?_, ?_, ?_⟩
  · intro now s rest
    obtain ⟨tail, htail⟩ :=
      prayerCleanupScan_prefix now rest [(s, ⟨s, .alone, now⟩)] true
    have hstep : prayerCleanupScan now (.str s :: rest) [] false =
        prayerCleanupScan now rest [(s, ⟨s, .alone, now⟩)] true := by
      simp [prayerCleanupScan]
    refine ⟨tail.map Prod.snd, ?_⟩
    rw [normalizePrayers, hstep, htail]
    simp
  · intro now prayersList
    obtain ⟨hkeys, hnodup⟩ := prayerCleanupScan_keys now prayersList [] false
      (by intro kv hkv; cases hkv) (by simp)
    have hmap : (normalizePrayers now prayersList).map (fun q => q.id) =
        (prayerCleanupScan now prayersList [] false).1.map Prod.fst := by
      rw [normalizePrayers, List.map_map]
      exact List.map_congr_left (fun kv hkv => (hkeys kv hkv).symm)
    rw [hmap]
    exact hnodup
  · intro now prayersList hpers
    rw [prayerPersistNeeded, Bool.or_eq_false_iff, Bool.or_eq_false_iff] at hpers
    obtain ⟨⟨hflag, hlen⟩, hstr⟩ := hpers
    rw [bne_eq_false_iff_eq] at hlen
    have hobj : ∀ p ∈ prayersList, isLegacyString p = false := by
      intro p hp
      have := List.any_eq_false.mp hstr p hp
      rwa [Bool.not_eq_true] at this
    have hmain := prayerCleanupScan_unchanged now prayersList [] hobj hflag
      (by simpa using hlen)
    rw [normalizePrayers, hmain]
    simp only [List.nil_append, List.map_map]
    symm
    refine (List.map_congr_left ?_).trans (List.map_id prayersList)
    intro p hp
    have hp2 := hobj p hp
    cases p with
    | str s => simp [isLegacyString] at hp2
    | obj q => rfl

theorem C9_prayer_normalization_witness :
    ([PrayerEntry.obj ⟨"asr", .jamat, "T1"⟩] : List PrayerEntry) =
      (normalizePrayers "T0" [PrayerEntry.obj ⟨"asr", .jamat, "T1"⟩]).map
        PrayerEntry.obj :=
  C9_prayer_normalization.2.2.2.2.2 "T0"
    [PrayerEntry.obj ⟨"asr", .jamat, "T1"⟩] (by decide)

end Stemmy
